import Mathlib

/-
  Verification development for the MIPS instruction-statistics tool
  (src/src/main.rs).  The Rust program is embedded shallowly:

  * `InsType` mirrors the Rust enum `InsType` (fields `u8`/`u16`/`u32`
    are modelled as `Nat`, with an explicit `% 256` / `% 65536` at every
    Rust integer cast whose input is not already bounded by the target
    width).
  * `instruction_type` mirrors `fn instruction_type` bit for bit,
    including the order of the branch tests (jump predicate first).
  * `handle_instructions`, `handle_opcodes`, `handle_registers` mirror
    the three aggregation loops; Rust array indexing that can panic is
    modelled with `Option` (`none` = panic).
  * `parse_instructions` mirrors the stdin line loop; input is a list of
    lines, each line a list of bytes (the byte count read for a line is
    its length).  `from_str_radix_u32` models `u32::from_str_radix(_, 16)`
    as documented for unsigned integers (optional leading `+` sign
    followed by base-16 digits, error on empty digits, non-digit or
    overflow).
-/

namespace MipsStats

/-- Mirrors the Rust enum `InsType`: `RType(rs, rt, rd, sham, func)`,
`IType(op, rs, rt, imm)`, `JType(op, addr)`. -/
inductive InsType : Type where
  | RType : Nat → Nat → Nat → Nat → Nat → InsType
  | IType : Nat → Nat → Nat → Nat → InsType
  | JType : Nat → Nat → InsType
deriving DecidableEq

/-- True exactly on the `RType` variant. -/
def InsType.isR : InsType → Bool
  | .RType _ _ _ _ _ => true
  | _ => false

/-- True exactly on the `IType` variant. -/
def InsType.isI : InsType → Bool
  | .IType _ _ _ _ => true
  | _ => false

/-- True exactly on the `JType` variant. -/
def InsType.isJ : InsType → Bool
  | .JType _ _ => true
  | _ => false

/-- Mirrors `fn instruction_type(instruction: &u32) -> InsType`.
The jump predicate is tested first, then the R-format zero test on the
top six bits, and everything else is I-format.  Every `as u8` / `as u16`
cast of the Rust source appears as `% 256` / `% 65536`. -/
def instruction_type (instruction : Nat) : InsType :=
  let is_j_type : Bool :=
    ((instruction &&& 0x08000000) == 0x08000000)
      || ((instruction &&& 0x0C000000) == 0x0C000000)
  if is_j_type then
    InsType.JType ((instruction >>> 26) % 256) (instruction &&& 0xFFFF)
  else if instruction &&& 0xFC000000 = 0 then
    InsType.RType ((instruction >>> 21) % 256)
      (((instruction >>> 16) &&& 0x1F) % 256)
      (((instruction >>> 11) &&& 0x1F) % 256)
      (((instruction >>> 6) &&& 0x1F) % 256)
      ((instruction &&& 0x3F) % 256)
  else
    InsType.IType ((instruction >>> 26) % 256)
      (((instruction >>> 21) &&& 0x1F) % 256)
      (((instruction >>> 16) &&& 0x1F) % 256)
      ((instruction &&& 0xFFFF) % 65536)

/-- Decoder written in the order of spec section 4.1: the R-format test
`top6 == 0` first, then the jump predicate, then I-format, with the
field extractions exactly as the spec words them (`rs = bits 25-21`
etc.).  To be compared with `instruction_type`, which tests the jump
predicate first. -/
def decode_spec_order (w : Nat) : InsType :=
  if w &&& 0xFC000000 = 0 then
    InsType.RType ((w >>> 21) &&& 0x1F) ((w >>> 16) &&& 0x1F)
      ((w >>> 11) &&& 0x1F) ((w >>> 6) &&& 0x1F) (w &&& 0x3F)
  else if (w &&& 0x08000000) = 0x08000000 ∨ (w &&& 0x0C000000) = 0x0C000000 then
    InsType.JType (w >>> 26) (w &&& 0xFFFF)
  else
    InsType.IType (w >>> 26) ((w >>> 21) &&& 0x1F) ((w >>> 16) &&& 0x1F)
      (w &&& 0xFFFF)

/-- Result of the counting loop in `fn handle_instructions`: one counter
per instruction format. -/
structure FormatCounts where
  i_type : Nat
  j_type : Nat
  r_type : Nat
deriving DecidableEq

/-- One iteration of the counting loop in `fn handle_instructions`:
increment the counter of the decoded variant. -/
def format_step (acc : FormatCounts) (instruction : Nat) : FormatCounts :=
  match instruction_type instruction with
  | InsType.IType _ _ _ _ => { acc with i_type := acc.i_type + 1 }
  | InsType.RType _ _ _ _ _ => { acc with r_type := acc.r_type + 1 }
  | InsType.JType _ _ => { acc with j_type := acc.j_type + 1 }

/-- Mirrors the counting loop of `fn handle_instructions`: fold over the
instruction list, incrementing the counter of the decoded variant. -/
def handle_instructions (instructions : List Nat) : FormatCounts :=
  instructions.foldl format_step ⟨0, 0, 0⟩

/-- Rust `counts[i] += 1`: in-bounds indexing increments the slot,
out-of-bounds indexing panics (`none`). -/
def bump (counts : List Nat) (i : Nat) : Option (List Nat) :=
  if h : i < counts.length then some (counts.set i (counts[i] + 1)) else none

/-- Mirrors the counting loop of `fn handle_opcodes`: a table of `0x3F`
(= 63) counters, incremented at the opcode of every J-format and
I-format instruction; R-format instructions are skipped.  `none` models
the panic of an out-of-bounds `opcode_counts[op]`. -/
def handle_opcodes (instructions : List Nat) : Option (List Nat) :=
  instructions.foldlM
    (fun counts instruction =>
      match instruction_type instruction with
      | InsType.JType op _ => bump counts op
      | InsType.IType op _ _ _ => bump counts op
      | _ => some counts)
    (List.replicate 0x3F 0)

/-- One iteration of the counting loop in `fn handle_registers`. -/
def register_step (tabs : List Nat × List Nat) (instruction : Nat) :
    Option (List Nat × List Nat) :=
  match instruction_type instruction with
  | InsType.RType rs rt rd _ _ => do
      let r1 ← bump tabs.1 rs
      let r2 ← bump r1 rt
      let r3 ← bump r2 rd
      pure (r3, tabs.2)
  | InsType.IType _ rs rt _ => do
      let i1 ← bump tabs.2 rs
      let i2 ← bump i1 rt
      pure (tabs.1, i2)
  | InsType.JType _ _ => pure tabs

/-- Mirrors the counting loop of `fn handle_registers`: two tables of 32
counters, one for R-format usage and one for I-format usage. -/
def handle_registers (instructions : List Nat) : Option (List Nat × List Nat) :=
  instructions.foldlM register_step (List.replicate 32 0, List.replicate 32 0)

/-- The data columns of the register-mode report rows: for each index,
`(r_count + i_count, r_count, i_count)`, mirroring the zip/enumerate
print loop of `fn handle_registers`. -/
def register_rows (rtab itab : List Nat) : List (Nat × Nat × Nat) :=
  (rtab.zip itab).map (fun p => (p.1 + p.2, p.1, p.2))

/-- How many of the register fields `rs`, `rt`, `rd` of an R-format
instruction name register `k` (0 for the other formats).  Spec-side
description of one loop step of register mode. -/
def r_uses (t : InsType) (k : Nat) : Nat :=
  match t with
  | InsType.RType rs rt rd _ _ =>
      (if rs = k then 1 else 0) + (if rt = k then 1 else 0)
        + (if rd = k then 1 else 0)
  | _ => 0

/-- How many of the register fields `rs`, `rt` of an I-format
instruction name register `k` (0 for the other formats). -/
def i_uses (t : InsType) (k : Nat) : Nat :=
  match t with
  | InsType.IType _ rs rt _ =>
      (if rs = k then 1 else 0) + (if rt = k then 1 else 0)
  | _ => 0

/-- Value of an ASCII byte as a base-16 digit, as in Rust
`char::to_digit(16)`: `0`-`9`, `a`-`f`, `A`-`F`. -/
def hex_digit_value (b : Nat) : Option Nat :=
  if 48 ≤ b ∧ b ≤ 57 then some (b - 48)
  else if 97 ≤ b ∧ b ≤ 102 then some (b - 87)
  else if 65 ≤ b ∧ b ≤ 70 then some (b - 55)
  else none

/-- Models `u32::from_str_radix(src, 16)` on a byte string, following
the documented behaviour for unsigned integers: an optional leading `+`
sign (byte 43), then one or more base-16 digits; empty digits, any
non-digit byte (including `-`), or overflow past `u32::MAX` is an
error. -/
def from_str_radix_u32 (src : List Nat) : Option Nat :=
  let digits := if src.head? = some 43 then src.tail else src
  if digits.isEmpty then none
  else
    digits.foldlM
      (fun acc b => do
        let d ← hex_digit_value b
        let v := acc * 16 + d
        if v < 2 ^ 32 then some v else none)
      0

/-- Mirrors the loop of `fn parse_instructions`.  Input is the list of
remaining stdin lines, each line the list of bytes returned by one
`read_line` call (terminator included), so the byte count of a line is
its length; the second argument is the accumulated instruction vector.
A line whose byte count is not 11 returns the instructions collected so
far (end of file is the empty list of lines, where `read_line` reads 0
bytes).  Otherwise bytes 2..9 (the slice `[2..len-1]`) are parsed as a
base-16 `u32`; parse failure is the `expect` panic, modelled `none`. -/
def parse_go : List (List Nat) → List Nat → Option (List Nat)
  | [], instructions => some instructions
  | line :: rest, instructions =>
    if line.length ≠ 11 then some instructions
    else
      match from_str_radix_u32 ((line.drop 2).take 8) with
      | none => none
      | some instruction => parse_go rest (instructions ++ [instruction])

/-- Mirrors `fn parse_instructions` from the start of stdin. -/
def parse_instructions (lines : List (List Nat)) : Option (List Nat) :=
  parse_go lines []

/-- The `main` pipeline for format mode (`-i`): parse first, then
aggregate; a parse panic yields no report at all. -/
def run_format_mode (lines : List (List Nat)) : Option FormatCounts :=
  (parse_instructions lines).map handle_instructions

/-- The bytes of the stdin line `0x+0000001` plus newline. -/
def plus_line : List Nat := [48, 120, 43, 48, 48, 48, 48, 48, 48, 49, 10]

/-- The bytes of the stdin line `0xZZZZZZZZ` plus newline. -/
def zz_line : List Nat := [48, 120, 90, 90, 90, 90, 90, 90, 90, 90, 10]

/-- The bytes of the stdin line `XY0000000A` plus newline. -/
def xy_line : List Nat := [88, 89, 48, 48, 48, 48, 48, 48, 48, 65, 10]

/- Bitwise helper lemmas. -/

lemma and_mask_absorb (w a b : Nat) (hab : a &&& b = b) :
    w &&& b = (w &&& a) &&& b := by
  rw [Nat.and_assoc, hab]

lemma and_single_bit (w i : Nat) :
    w &&& 2 ^ i = if w.testBit i then 2 ^ i else 0 := by
  apply Nat.eq_of_testBit_eq
  intro j
  rw [Nat.testBit_and, Nat.testBit_two_pow]
  by_cases hij : i = j
  · subst hij
    cases hb : w.testBit i <;> simp [hb, Nat.testBit_two_pow]
  · cases hb : w.testBit i <;> simp [hb, Nat.testBit_two_pow, hij]

lemma bit27_of_ne_zero {w : Nat} (h : w &&& 0x08000000 ≠ 0) :
    w &&& 0x08000000 = 0x08000000 := by
  have e : (0x08000000 : Nat) = 2 ^ 27 := by norm_num
  rw [e] at h ⊢
  rw [and_single_bit] at h ⊢
  cases hb : w.testBit 27 <;> simp [hb] at h ⊢

lemma bit27_of_bits2726 {w : Nat} (h : w &&& 0x0C000000 = 0x0C000000) :
    w &&& 0x08000000 = 0x08000000 := by
  have step : w &&& 0x08000000 = (w &&& 0x0C000000) &&& 0x08000000 :=
    and_mask_absorb w 0x0C000000 0x08000000 (by decide)
  rw [step, h]
  decide

lemma top6_zero_bit27 {w : Nat} (h : w &&& 0xFC000000 = 0) :
    w &&& 0x08000000 = 0 := by
  have step : w &&& 0x08000000 = (w &&& 0xFC000000) &&& 0x08000000 :=
    and_mask_absorb w 0xFC000000 0x08000000 (by decide)
  rw [step, h]
  decide

lemma top6_zero_bits2726 {w : Nat} (h : w &&& 0xFC000000 = 0) :
    w &&& 0x0C000000 = 0 := by
  have step : w &&& 0x0C000000 = (w &&& 0xFC000000) &&& 0x0C000000 :=
    and_mask_absorb w 0xFC000000 0x0C000000 (by decide)
  rw [step, h]
  decide

/-- The implemented jump predicate collapses to the first disjunct. -/
lemma jump_pred_iff_bit27 (w : Nat) :
    ((w &&& 0x08000000) = 0x08000000 ∨ (w &&& 0x0C000000) = 0x0C000000)
      ↔ w &&& 0x08000000 ≠ 0 := by
  constructor
  · rintro (h | h)
    · rw [h]; norm_num
    · rw [bit27_of_bits2726 h]; norm_num
  · intro h
    exact Or.inl (bit27_of_ne_zero h)

lemma top6_zero_not_jump {w : Nat} (h : w &&& 0xFC000000 = 0) :
    ¬ ((w &&& 0x08000000) = 0x08000000 ∨ (w &&& 0x0C000000) = 0x0C000000) := by
  rw [jump_pred_iff_bit27]
  intro hne
  exact hne (top6_zero_bit27 h)

lemma lt_two_pow_26 {w : Nat} (hw : w < 2 ^ 32) (h : w &&& 0xFC000000 = 0) :
    w < 2 ^ 26 := by
  apply Nat.lt_pow_two_of_testBit
  intro i hi
  by_cases h32 : i < 32
  · have hz : (w &&& 0xFC000000).testBit i = false := by
      rw [h]; simp
    rw [Nat.testBit_and] at hz
    have hm : (0xFC000000 : Nat).testBit i = true := by
      interval_cases i <;> decide
    simpa [hm] using hz
  · exact Nat.testBit_lt_two_pow
      (lt_of_lt_of_le hw (Nat.pow_le_pow_right (by norm_num) (by omega)))

lemma shiftRight26_lt {w : Nat} (hw : w < 2 ^ 32) : w >>> 26 < 64 := by
  rw [Nat.shiftRight_eq_div_pow]
  exact Nat.div_lt_of_lt_mul (by norm_num at hw ⊢; omega)

lemma shiftRight21_lt_of_r {w : Nat} (hw : w < 2 ^ 32)
    (h : w &&& 0xFC000000 = 0) : w >>> 21 < 32 := by
  rw [Nat.shiftRight_eq_div_pow]
  have h26 := lt_two_pow_26 hw h
  exact Nat.div_lt_of_lt_mul (by norm_num at h26 ⊢; omega)

lemma and_31_lt (x : Nat) : x &&& 0x1F < 32 :=
  lt_of_le_of_lt Nat.and_le_right (by norm_num)

lemma and_63_lt (x : Nat) : x &&& 0x3F < 64 :=
  lt_of_le_of_lt Nat.and_le_right (by norm_num)

lemma and_ffff_lt (x : Nat) : x &&& 0xFFFF < 65536 :=
  lt_of_le_of_lt Nat.and_le_right (by norm_num)

lemma and_31_self {x : Nat} (h : x < 32) : x &&& 0x1F = x := by
  have e : (0x1F : Nat) = 2 ^ 5 - 1 := by norm_num
  rw [e]
  exact Nat.and_pow_two_sub_one_of_lt_two_pow (by norm_num at h ⊢; omega)

/- Branch characterizations of `instruction_type`. -/

lemma instruction_type_j_eq {w : Nat} (h : w &&& 0x08000000 = 0x08000000) :
    instruction_type w = InsType.JType ((w >>> 26) % 256) (w &&& 0xFFFF) := by
  simp [instruction_type, h]

lemma instruction_type_r_eq {w : Nat} (h : w &&& 0xFC000000 = 0) :
    instruction_type w
      = InsType.RType ((w >>> 21) % 256) (((w >>> 16) &&& 0x1F) % 256)
          (((w >>> 11) &&& 0x1F) % 256) (((w >>> 6) &&& 0x1F) % 256)
          ((w &&& 0x3F) % 256) := by
  have h27 := top6_zero_bit27 h
  have h26 := top6_zero_bits2726 h
  simp [instruction_type, h, h27, h26]

lemma instruction_type_i_eq {w : Nat} (h27 : w &&& 0x08000000 = 0)
    (h6 : w &&& 0xFC000000 ≠ 0) :
    instruction_type w
      = InsType.IType ((w >>> 26) % 256) (((w >>> 21) &&& 0x1F) % 256)
          (((w >>> 16) &&& 0x1F) % 256) ((w &&& 0xFFFF) % 65536) := by
  have h26 : w &&& 0x0C000000 ≠ 0x0C000000 := by
    intro hc
    have hb := bit27_of_bits2726 hc
    rw [h27] at hb
    norm_num at hb
  simp [instruction_type, h27, h26, h6]

/- Field bounds of the decoded variants. -/

lemma r_fields_lt {w rs rt rd sham func : Nat} (hw : w < 2 ^ 32)
    (h : instruction_type w = InsType.RType rs rt rd sham func) :
    rs < 32 ∧ rt < 32 ∧ rd < 32 ∧ sham < 32 ∧ func < 64 := by
  by_cases hb : w &&& 0x08000000 = 0
  · by_cases h0 : w &&& 0xFC000000 = 0
    · rw [instruction_type_r_eq h0] at h
      injection h with h1 h2 h3 h4 h5
      have hrs := shiftRight21_lt_of_r hw h0
      refine ⟨?_, ?_, ?_, ?_, ?_⟩
      · rw [← h1, Nat.mod_eq_of_lt (by omega)]; exact hrs
      · rw [← h2, Nat.mod_eq_of_lt (by have := and_31_lt (w >>> 16); omega)]
        exact and_31_lt (w >>> 16)
      · rw [← h3, Nat.mod_eq_of_lt (by have := and_31_lt (w >>> 11); omega)]
        exact and_31_lt (w >>> 11)
      · rw [← h4, Nat.mod_eq_of_lt (by have := and_31_lt (w >>> 6); omega)]
        exact and_31_lt (w >>> 6)
      · rw [← h5, Nat.mod_eq_of_lt (by have := and_63_lt w; omega)]
        exact and_63_lt w
    · rw [instruction_type_i_eq hb h0] at h
      exact InsType.noConfusion h
  · rw [instruction_type_j_eq (bit27_of_ne_zero hb)] at h
    exact InsType.noConfusion h

lemma i_fields_lt {w op rs rt imm : Nat} (hw : w < 2 ^ 32)
    (h : instruction_type w = InsType.IType op rs rt imm) :
    op < 64 ∧ rs < 32 ∧ rt < 32 ∧ imm < 65536 := by
  by_cases hb : w &&& 0x08000000 = 0
  · by_cases h0 : w &&& 0xFC000000 = 0
    · rw [instruction_type_r_eq h0] at h
      exact InsType.noConfusion h
    · rw [instruction_type_i_eq hb h0] at h
      injection h with h1 h2 h3 h4
      have hop := shiftRight26_lt hw
      refine ⟨?_, ?_, ?_, ?_⟩
      · rw [← h1, Nat.mod_eq_of_lt (by omega)]; exact hop
      · rw [← h2, Nat.mod_eq_of_lt (by have := and_31_lt (w >>> 21); omega)]
        exact and_31_lt (w >>> 21)
      · rw [← h3, Nat.mod_eq_of_lt (by have := and_31_lt (w >>> 16); omega)]
        exact and_31_lt (w >>> 16)
      · rw [← h4, Nat.mod_eq_of_lt (by have := and_ffff_lt w; omega)]
        exact and_ffff_lt w
  · rw [instruction_type_j_eq (bit27_of_ne_zero hb)] at h
    exact InsType.noConfusion h

lemma j_fields_lt {w op addr : Nat} (hw : w < 2 ^ 32)
    (h : instruction_type w = InsType.JType op addr) :
    op < 64 ∧ addr < 65536 := by
  by_cases hb : w &&& 0x08000000 = 0
  · by_cases h0 : w &&& 0xFC000000 = 0
    · rw [instruction_type_r_eq h0] at h
      exact InsType.noConfusion h
    · rw [instruction_type_i_eq hb h0] at h
      exact InsType.noConfusion h
  · rw [instruction_type_j_eq (bit27_of_ne_zero hb)] at h
    injection h with h1 h2
    have hop := shiftRight26_lt hw
    constructor
    · rw [← h1, Nat.mod_eq_of_lt (by omega)]; exact hop
    · rw [← h2]; exact and_ffff_lt w

lemma bit27_zero_of_not_jump {w : Nat}
    (h : ¬ ((w &&& 0x08000000) = 0x08000000 ∨ (w &&& 0x0C000000) = 0x0C000000)) :
    w &&& 0x08000000 = 0 := by
  by_contra hne
  exact h (Or.inl (bit27_of_ne_zero hne))

/- Canonical forms of the three decode branches on 32-bit words: the
Rust casts (`% 256`, `% 65536`) are no-ops there and the unmasked
R-format `rs` agrees with its masked form. -/

lemma decode_r_canonical {w : Nat} (hw : w < 2 ^ 32)
    (h0 : w &&& 0xFC000000 = 0) :
    instruction_type w
      = InsType.RType ((w >>> 21) &&& 0x1F) ((w >>> 16) &&& 0x1F)
          ((w >>> 11) &&& 0x1F) ((w >>> 6) &&& 0x1F) (w &&& 0x3F) := by
  rw [instruction_type_r_eq h0]
  have hrs := shiftRight21_lt_of_r hw h0
  rw [Nat.mod_eq_of_lt (show w >>> 21 < 256 by omega),
    Nat.mod_eq_of_lt (show (w >>> 16) &&& 0x1F < 256 by
      have := and_31_lt (w >>> 16); omega),
    Nat.mod_eq_of_lt (show (w >>> 11) &&& 0x1F < 256 by
      have := and_31_lt (w >>> 11); omega),
    Nat.mod_eq_of_lt (show (w >>> 6) &&& 0x1F < 256 by
      have := and_31_lt (w >>> 6); omega),
    Nat.mod_eq_of_lt (show w &&& 0x3F < 256 by have := and_63_lt w; omega),
    and_31_self hrs]

lemma decode_j_canonical {w : Nat} (hw : w < 2 ^ 32)
    (h27 : w &&& 0x08000000 = 0x08000000) :
    instruction_type w = InsType.JType (w >>> 26) (w &&& 0xFFFF) := by
  rw [instruction_type_j_eq h27]
  have hop := shiftRight26_lt hw
  rw [Nat.mod_eq_of_lt (show w >>> 26 < 256 by omega)]

lemma decode_i_canonical {w : Nat} (hw : w < 2 ^ 32)
    (h27 : w &&& 0x08000000 = 0) (h6 : w &&& 0xFC000000 ≠ 0) :
    instruction_type w
      = InsType.IType (w >>> 26) ((w >>> 21) &&& 0x1F) ((w >>> 16) &&& 0x1F)
          (w &&& 0xFFFF) := by
  rw [instruction_type_i_eq h27 h6]
  have hop := shiftRight26_lt hw
  rw [Nat.mod_eq_of_lt (show w >>> 26 < 256 by omega),
    Nat.mod_eq_of_lt (show (w >>> 21) &&& 0x1F < 256 by
      have := and_31_lt (w >>> 21); omega),
    Nat.mod_eq_of_lt (show (w >>> 16) &&& 0x1F < 256 by
      have := and_31_lt (w >>> 16); omega),
    Nat.mod_eq_of_lt (show w &&& 0xFFFF < 65536 from and_ffff_lt w)]

/-- C2: every 32-bit word decodes by the three-step rule of spec 4.1:
`top6 == 0` gives R-format with the five shifted-and-masked fields,
otherwise the jump predicate gives J-format, otherwise I-format with
opcode, `rs`, `rt` and the low 16 bits. -/
theorem decode_follows_spec_rule (w : Nat) (hw : w < 2 ^ 32) :
    (w &&& 0xFC000000 = 0 →
        instruction_type w
          = InsType.RType ((w >>> 21) &&& 0x1F) ((w >>> 16) &&& 0x1F)
              ((w >>> 11) &&& 0x1F) ((w >>> 6) &&& 0x1F) (w &&& 0x3F))
      ∧ (w &&& 0xFC000000 ≠ 0 →
          ((w &&& 0x08000000) = 0x08000000 ∨ (w &&& 0x0C000000) = 0x0C000000) →
          (instruction_type w).isJ = true)
      ∧ (w &&& 0xFC000000 ≠ 0 →
          ¬ ((w &&& 0x08000000) = 0x08000000 ∨ (w &&& 0x0C000000) = 0x0C000000) →
          instruction_type w
            = InsType.IType (w >>> 26) ((w >>> 21) &&& 0x1F) ((w >>> 16) &&& 0x1F)
                (w &&& 0xFFFF)) := by
  refine ⟨fun h0 => decode_r_canonical hw h0, fun _ hj => ?_, fun h6 hnj => ?_⟩
  · have h27 : w &&& 0x08000000 = 0x08000000 := hj.elim id bit27_of_bits2726
    rw [decode_j_canonical hw h27]
    rfl
  · exact decode_i_canonical hw (bit27_zero_of_not_jump hnj) h6

theorem decode_follows_spec_rule_witness :
    instruction_type 0
      = InsType.RType ((0 >>> 21) &&& 0x1F) ((0 >>> 16) &&& 0x1F)
          ((0 >>> 11) &&& 0x1F) ((0 >>> 6) &&& 0x1F) (0 &&& 0x3F) :=
  (decode_follows_spec_rule 0 (by norm_num)).1 (by decide)

/-- C3: testing the R-format zero check first (`decode_spec_order`) and
testing the jump predicate first (`instruction_type`, as implemented)
give the same decoded instruction on every 32-bit word, and the two
guard predicates are mutually exclusive. -/
theorem decode_order_equiv (w : Nat) (hw : w < 2 ^ 32) :
    decode_spec_order w = instruction_type w
      ∧ ¬ (w &&& 0xFC000000 = 0
            ∧ ((w &&& 0x08000000) = 0x08000000
                ∨ (w &&& 0x0C000000) = 0x0C000000)) := by
  constructor
  · by_cases h0 : w &&& 0xFC000000 = 0
    · rw [decode_r_canonical hw h0, decode_spec_order, if_pos h0]
    · by_cases hj : (w &&& 0x08000000) = 0x08000000
          ∨ (w &&& 0x0C000000) = 0x0C000000
      · have h27 : w &&& 0x08000000 = 0x08000000 := hj.elim id bit27_of_bits2726
        rw [decode_j_canonical hw h27, decode_spec_order, if_neg h0, if_pos hj]
      · rw [decode_i_canonical hw (bit27_zero_of_not_jump hj) h0,
          decode_spec_order, if_neg h0, if_neg hj]
  · rintro ⟨h0, hj⟩
    exact top6_zero_not_jump h0 hj

theorem decode_order_equiv_witness :
    decode_spec_order 0x08000005 = instruction_type 0x08000005
      ∧ ¬ ((0x08000005 : Nat) &&& 0xFC000000 = 0
            ∧ (((0x08000005 : Nat) &&& 0x08000000) = 0x08000000
                ∨ ((0x08000005 : Nat) &&& 0x0C000000) = 0x0C000000)) :=
  decode_order_equiv 0x08000005 (by norm_num)

/-- C4: every word classified J-format carries `opcode = word >>> 26`
and `address = word &&& 0xFFFF` (low 16 bits); in particular
`0x08000005` decodes as J-format with opcode 2 and address 5. -/
theorem jtype_fields :
    (∀ w, w < 2 ^ 32 → ∀ op addr,
        instruction_type w = InsType.JType op addr →
        op = w >>> 26 ∧ addr = w &&& 0xFFFF)
      ∧ instruction_type 0x08000005 = InsType.JType 2 5 := by
  constructor
  · intro w hw op addr h
    by_cases hb : w &&& 0x08000000 = 0
    · by_cases h0 : w &&& 0xFC000000 = 0
      · rw [instruction_type_r_eq h0] at h
        exact InsType.noConfusion h
      · rw [instruction_type_i_eq hb h0] at h
        exact InsType.noConfusion h
    · rw [decode_j_canonical hw (bit27_of_ne_zero hb)] at h
      injection h with h1 h2
      exact ⟨h1.symm, h2.symm⟩
  · decide

theorem jtype_fields_witness :
    (2 : Nat) = 0x08000005 >>> 26 ∧ (5 : Nat) = (0x08000005 : Nat) &&& 0xFFFF :=
  jtype_fields.1 0x08000005 (by norm_num) 2 5 (by decide)

/-- C5: on every 32-bit word the decoded fields lie in the spec ranges:
R-format `rs`, `rt`, `rd` below 32 and `sham`, `func` at most 63;
I-format `rs`, `rt` below 32 and `imm` at most 65535; J-format `addr`
at most 65535 and `op` at most 63. -/
theorem decode_field_ranges (w : Nat) (hw : w < 2 ^ 32) :
    (∀ rs rt rd sham func,
        instruction_type w = InsType.RType rs rt rd sham func →
        rs ≤ 31 ∧ rt ≤ 31 ∧ rd ≤ 31 ∧ sham ≤ 63 ∧ func ≤ 63)
      ∧ (∀ op rs rt imm,
          instruction_type w = InsType.IType op rs rt imm →
          rs ≤ 31 ∧ rt ≤ 31 ∧ imm ≤ 65535)
      ∧ (∀ op addr,
          instruction_type w = InsType.JType op addr →
          addr ≤ 65535 ∧ op ≤ 63) := by
  refine ⟨fun rs rt rd sham func h => ?_, fun op rs rt imm h => ?_,
    fun op addr h => ?_⟩
  · have := r_fields_lt hw h
    omega
  · have := i_fields_lt hw h
    omega
  · have := j_fields_lt hw h
    omega

theorem decode_field_ranges_witness :
    (0 : Nat) ≤ 31 ∧ (0 : Nat) ≤ 31 ∧ (0 : Nat) ≤ 31 ∧ (0 : Nat) ≤ 63
      ∧ (0 : Nat) ≤ 63 :=
  (decode_field_ranges 0 (by norm_num)).1 0 0 0 0 0 (by decide)

/-- C10: on every 32-bit word the implemented jump predicate holds
exactly when bit 27 is set (the second disjunct is redundant), and
every word with bit 27 set classifies as J-format. -/
theorem jump_predicate_bit27 (w : Nat) (hw : w < 2 ^ 32) :
    (((w &&& 0x08000000) = 0x08000000 ∨ (w &&& 0x0C000000) = 0x0C000000)
        ↔ w &&& 0x08000000 ≠ 0)
      ∧ (w &&& 0x08000000 ≠ 0 → (instruction_type w).isJ = true) := by
  refine ⟨jump_pred_iff_bit27 w, fun h => ?_⟩
  rw [decode_j_canonical hw (bit27_of_ne_zero h)]
  rfl

theorem jump_predicate_bit27_witness :
    ((((0x28000000 : Nat) &&& 0x08000000) = 0x08000000
        ∨ ((0x28000000 : Nat) &&& 0x0C000000) = 0x0C000000)
      ↔ (0x28000000 : Nat) &&& 0x08000000 ≠ 0)
    ∧ ((0x28000000 : Nat) &&& 0x08000000 ≠ 0
        → (instruction_type 0x28000000).isJ = true) :=
  jump_predicate_bit27 0x28000000 (by norm_num)

/-- C1 (refuted by the code): the word `0xFC000000` decodes as J-format
with opcode 63, and aggregating the one-instruction stream `[0xFC000000]`
in opcode mode hits the out-of-bounds index 63 of the 63-slot counter
table and panics (`none`) instead of silently dropping the
instruction. -/
theorem opcode63_crash :
    instruction_type 0xFC000000 = InsType.JType 63 0
      ∧ handle_opcodes [0xFC000000] = none := by
  constructor
  · decide
  · decide

lemma handle_instructions_go (instructions : List Nat) :
    ∀ acc : FormatCounts,
      (instructions.foldl format_step acc).i_type
          + (instructions.foldl format_step acc).j_type
          + (instructions.foldl format_step acc).r_type
        = acc.i_type + acc.j_type + acc.r_type + instructions.length := by
  induction instructions with
  | nil => intro acc; simp
  | cons w ws ih =>
    intro acc
    rw [List.foldl_cons, ih]
    cases h : instruction_type w <;> simp [format_step, h] <;> omega

/-- C6: decoding is a total function into the three-variant sum type
(each word lands in exactly one variant), and the three format-mode
counters sum to the number of instructions. -/
theorem decode_partition_counts :
    (∀ w : Nat,
        (instruction_type w).isR.toNat + (instruction_type w).isI.toNat
            + (instruction_type w).isJ.toNat = 1)
      ∧ (∀ instructions : List Nat,
          (handle_instructions instructions).i_type
              + (handle_instructions instructions).j_type
              + (handle_instructions instructions).r_type
            = instructions.length) := by
  constructor
  · intro w
    cases h : instruction_type w <;> simp [InsType.isR, InsType.isI, InsType.isJ]
  · intro instructions
    have h := handle_instructions_go instructions ⟨0, 0, 0⟩
    simpa [handle_instructions] using h

/- Register-mode accounting. -/

lemma bump_exists {counts : List Nat} {i : Nat} (h : i < counts.length) :
    ∃ counts', bump counts i = some counts' := by
  unfold bump
  rw [dif_pos h]
  exact ⟨_, rfl⟩

lemma bump_getD {counts counts' : List Nat} {i : Nat}
    (hb : bump counts i = some counts') :
    counts'.length = counts.length
      ∧ ∀ k, counts'[k]?.getD 0
          = counts[k]?.getD 0 + (if i = k then 1 else 0) := by
  unfold bump at hb
  split at hb
  case isTrue h =>
    injection hb with hb'
    subst hb'
    refine ⟨by simp, fun k => ?_⟩
    by_cases hik : i = k
    · subst hik
      rw [List.getElem?_set_self h, List.getElem?_eq_getElem h]
      simp
    · rw [List.getElem?_set_ne hik]
      simp [hik]
  case isFalse h => exact absurd hb (by simp)

lemma register_step_some {tabs : List Nat × List Nat} {w : Nat}
    (hw : w < 2 ^ 32) (hr : tabs.1.length = 32) (hi : tabs.2.length = 32) :
    ∃ tabs' : List Nat × List Nat,
      register_step tabs w = some tabs'
        ∧ tabs'.1.length = 32 ∧ tabs'.2.length = 32
        ∧ ∀ k,
            tabs'.1[k]?.getD 0
                = tabs.1[k]?.getD 0 + r_uses (instruction_type w) k
              ∧ tabs'.2[k]?.getD 0
                = tabs.2[k]?.getD 0 + i_uses (instruction_type w) k := by
  cases ht : instruction_type w with
  | RType rs rt rd sham func =>
    obtain ⟨hrs, hrt, hrd, _, _⟩ := r_fields_lt hw ht
    obtain ⟨r1, hb1⟩ := bump_exists (show rs < tabs.1.length by omega)
    obtain ⟨hl1, hp1⟩ := bump_getD hb1
    obtain ⟨r2, hb2⟩ := bump_exists (show rt < r1.length by omega)
    obtain ⟨hl2, hp2⟩ := bump_getD hb2
    obtain ⟨r3, hb3⟩ := bump_exists (show rd < r2.length by omega)
    obtain ⟨hl3, hp3⟩ := bump_getD hb3
    refine ⟨(r3, tabs.2), ?_, by simp; omega, hi, fun k => ⟨?_, ?_⟩⟩
    · simp [register_step, ht, hb1, hb2, hb3]
    · show r3[k]?.getD 0 = tabs.1[k]?.getD 0 + r_uses (InsType.RType rs rt rd sham func) k
      rw [hp3 k, hp2 k, hp1 k]
      simp only [r_uses]
      omega
    · show tabs.2[k]?.getD 0
        = tabs.2[k]?.getD 0 + i_uses (InsType.RType rs rt rd sham func) k
      simp [i_uses]
  | IType op rs rt imm =>
    obtain ⟨_, hrs, hrt, _⟩ := i_fields_lt hw ht
    obtain ⟨i1, hb1⟩ := bump_exists (show rs < tabs.2.length by omega)
    obtain ⟨hl1, hp1⟩ := bump_getD hb1
    obtain ⟨i2, hb2⟩ := bump_exists (show rt < i1.length by omega)
    obtain ⟨hl2, hp2⟩ := bump_getD hb2
    refine ⟨(tabs.1, i2), ?_, hr, by simp; omega, fun k => ⟨?_, ?_⟩⟩
    · simp [register_step, ht, hb1, hb2]
    · show tabs.1[k]?.getD 0
        = tabs.1[k]?.getD 0 + r_uses (InsType.IType op rs rt imm) k
      simp [r_uses]
    · show i2[k]?.getD 0
        = tabs.2[k]?.getD 0 + i_uses (InsType.IType op rs rt imm) k
      rw [hp2 k, hp1 k]
      simp only [i_uses]
      omega
  | JType op addr =>
    refine ⟨tabs, by simp [register_step, ht], hr, hi, fun k => ⟨?_, ?_⟩⟩
    · simp [r_uses]
    · simp [i_uses]

lemma handle_registers_go (instructions : List Nat) :
    ∀ tabs : List Nat × List Nat,
      (∀ w ∈ instructions, w < 2 ^ 32) →
      tabs.1.length = 32 → tabs.2.length = 32 →
      ∃ tabs' : List Nat × List Nat,
        instructions.foldlM register_step tabs = some tabs'
          ∧ tabs'.1.length = 32 ∧ tabs'.2.length = 32
          ∧ ∀ k,
              tabs'.1[k]?.getD 0
                  = tabs.1[k]?.getD 0
                    + (instructions.map
                        fun w => r_uses (instruction_type w) k).sum
                ∧ tabs'.2[k]?.getD 0
                  = tabs.2[k]?.getD 0
                    + (instructions.map
                        fun w => i_uses (instruction_type w) k).sum := by
  induction instructions with
  | nil =>
    intro tabs _ h1 h2
    exact ⟨tabs, rfl, h1, h2, fun k => by simp⟩
  | cons w ws ih =>
    intro tabs hbound h1 h2
    obtain ⟨tabs1, hstep, l1, l2, hpt⟩ :=
      register_step_some (hbound w (by simp)) h1 h2
    obtain ⟨tabs', hfold, l1', l2', hpt'⟩ :=
      ih tabs1 (fun x hx => hbound x (by simp [hx])) l1 l2
    refine ⟨tabs', ?_, l1', l2', fun k => ?_⟩
    · rw [List.foldlM_cons, hstep]
      exact hfold
    · obtain ⟨a1, a2⟩ := hpt k
      obtain ⟨b1, b2⟩ := hpt' k
      constructor
      · rw [b1, a1]
        simp
        omega
      · rw [b2, a2]
        simp
        omega

/-- C7: on any stream of 32-bit words, register mode succeeds with two
32-entry tables in which entry `k` of the R table counts every `rs`,
`rt`, `rd` field of an R-format instruction equal to `k` (a repeated
register counts once per field) and entry `k` of the I table counts
every `rs`, `rt` field of an I-format instruction, J-format
instructions touching neither; each of the 32 report rows shows total
usage `r_count + i_count`. -/
theorem register_accounting (instructions : List Nat)
    (hbound : ∀ w ∈ instructions, w < 2 ^ 32) :
    ∃ rtab itab,
      handle_registers instructions = some (rtab, itab)
        ∧ rtab.length = 32 ∧ itab.length = 32
        ∧ (∀ k, k < 32 →
            rtab[k]?.getD 0
                = (instructions.map fun w => r_uses (instruction_type w) k).sum
              ∧ itab[k]?.getD 0
                = (instructions.map fun w => i_uses (instruction_type w) k).sum)
        ∧ (register_rows rtab itab).length = 32
        ∧ ∀ row ∈ register_rows rtab itab, row.1 = row.2.1 + row.2.2 := by
  obtain ⟨tabs', h, l1, l2, hpt⟩ :=
    handle_registers_go instructions (List.replicate 32 0, List.replicate 32 0)
      hbound (by simp) (by simp)
  have hzero : ∀ k : Nat, ((List.replicate 32 (0 : Nat))[k]?).getD 0 = 0 := by
    intro k
    rw [List.getElem?_replicate]
    split <;> simp
  refine ⟨tabs'.1, tabs'.2, h, l1, l2, fun k hk => ?_, ?_, ?_⟩
  · obtain ⟨a1, a2⟩ := hpt k
    constructor
    · rw [a1]
      simp only [hzero]
      omega
    · rw [a2]
      simp only [hzero]
      omega
  · simp [register_rows, l1, l2]
  · intro row hrow
    simp only [register_rows, List.mem_map] at hrow
    obtain ⟨p, _, rfl⟩ := hrow
    rfl

theorem register_accounting_witness :
    ∃ rtab itab,
      handle_registers [0xA55000] = some (rtab, itab)
        ∧ rtab[5]?.getD 0 = 2 ∧ rtab[10]?.getD 0 = 1
        ∧ ∀ k, k < 32 → itab[k]?.getD 0 = 0 := by
  obtain ⟨rtab, itab, h, l1, l2, hpt, _, _⟩ :=
    register_accounting [0xA55000] (by intro w hw; simp at hw; omega)
  refine ⟨rtab, itab, h, ?_, ?_, fun k hk => ?_⟩
  · rw [(hpt 5 (by norm_num)).1]
    decide
  · rw [(hpt 10 (by norm_num)).1]
    decide
  · rw [(hpt k hk).2]
    have hi : instruction_type 0xA55000 = InsType.RType 5 5 10 0 0 := by decide
    simp [hi, i_uses]

/- Input-reader claims. -/

/-- C8 counterexample: the 11-byte line `0x+0000001` has a middle byte
(the `+`, byte 43) that is not a hexadecimal digit, yet the reader does
not abort: `u32::from_str_radix` accepts the sign, the line parses to
the word 1, and the whole input is accepted. -/
theorem hex_claim_counterexample :
    plus_line.length = 11
      ∧ ((plus_line.drop 2).take 8).all
          (fun b => (hex_digit_value b).isSome) = false
      ∧ parse_instructions [plus_line] ≠ none
      ∧ parse_instructions [plus_line] = some [1] := by
  refine ⟨by decide, by decide, by decide, by decide⟩

/-- C8 as amended: a line whose byte count is not 11 (end of file
included) ends the read loop without error, returning the instructions
collected so far; an 11-byte line whose middle 8 bytes fail to parse as
a base-16 `u32` (all hexadecimal digits, or an optional leading `+`
sign followed by hexadecimal digits) aborts the reader, and an aborted
reader yields no statistics output at all. -/
theorem parse_termination_amended :
    (∀ (line : List Nat) (rest : List (List Nat)) (acc : List Nat),
        line.length ≠ 11 → parse_go (line :: rest) acc = some acc)
      ∧ (∀ acc : List Nat, parse_go [] acc = some acc)
      ∧ (∀ (line : List Nat) (rest : List (List Nat)) (acc : List Nat),
          line.length = 11 →
          from_str_radix_u32 ((line.drop 2).take 8) = none →
          parse_go (line :: rest) acc = none)
      ∧ (∀ lines : List (List Nat),
          parse_instructions lines = none → run_format_mode lines = none) := by
  refine ⟨fun line rest acc h => ?_, fun acc => rfl,
    fun line rest acc hlen hfail => ?_, fun lines h => ?_⟩
  · simp [parse_go, h]
  · simp [parse_go, hlen, hfail]
  · simp [run_format_mode, h]

theorem parse_termination_amended_witness :
    parse_go [[48, 120, 10]] [] = some []
      ∧ parse_go [zz_line] [] = none
      ∧ run_format_mode [zz_line] = none :=
  ⟨parse_termination_amended.1 [48, 120, 10] [] [] (by decide),
    parse_termination_amended.2.2.1 zz_line [] [] (by decide) (by decide),
    parse_termination_amended.2.2.2 [zz_line] (by decide)⟩

/-- C9: the reader never inspects the first two bytes of an 11-byte
line: the parse result is a function of the middle 8 bytes only, so the
line `XY0000000A` (no `0x` prefix) is accepted and contributes the word
10 parsed from `0000000A`. -/
theorem first_two_bytes_ignored :
    (∀ (x y e : Nat) (mid : List Nat) (rest : List (List Nat))
        (acc : List Nat),
        mid.length = 8 →
        parse_go ((x :: y :: mid ++ [e]) :: rest) acc
          = match from_str_radix_u32 mid with
            | none => none
            | some instruction => parse_go rest (acc ++ [instruction]))
      ∧ parse_instructions [xy_line] = some [10] := by
  constructor
  · intro x y e mid rest acc hm
    have hlen : (x :: y :: mid ++ [e]).length = 11 := by simp [hm]
    have hdrop : ((x :: y :: mid ++ [e]).drop 2).take 8 = mid := by
      simp [List.take_append_eq_append_take, hm]
    simp only [parse_go, hlen, hdrop]
    norm_num
  · decide

theorem first_two_bytes_ignored_witness :
    parse_go [88 :: 89 :: [48, 48, 48, 48, 48, 48, 48, 65] ++ [10]] []
      = some [10] :=
  (first_two_bytes_ignored.1 88 89 10 [48, 48, 48, 48, 48, 48, 48, 65] [] []
      (by decide)).trans
    (by decide)

end MipsStats
